import Mathlib

/-!
# Verification of the odds-synchronization core (`main.go`)

A shallow embedding of the pure data transformations of the service —
the fractional→decimal odds converter, the live-odds decoding fold, the
game/odds upsert operations over an explicit store, and the two sync
orchestration loops — together with proofs of the specified properties.

Modelling conventions:
* Go `float64` arithmetic is modelled by exact rational arithmetic (`ℚ`);
  `strconv.ParseFloat` is modelled on its plain decimal grammar (optional
  sign, integer digits, optional `.` and fraction digits); exponent, hex,
  underscore and inf/nan forms are outside the modelled grammar.
* A decoded upstream record (`map[string]any` after `%v`-stringification
  of its values) is modelled as an association list of string pairs; a
  missing key renders as `"<nil>"`, as `fmt.Sprintf("%v", nil)` does.
* The relational store is modelled as an explicit list of rows; SQL
  `DELETE`/`INSERT ... ON CONFLICT DO UPDATE` become list filtering and
  keyed replacement.  The `updated_at := now()` column of `games` is not
  carried (no property mentions it).
* Clocks (`time.Now()`, `CURRENT_DATE`) become explicit `Nat` parameters.
-/

namespace OddsSync

/-! ## Numeric parsing, rounding and formatting -/

/-- Numeric value of a list of decimal digit characters (most significant
first), as `strconv` accumulates them. -/
def digitsToNat (ds : List Char) : Nat :=
  ds.foldl (fun a c => a * 10 + (c.toNat - 48)) 0

/-- Consumption of the optional leading `+`/`-` sign of a numeric literal,
as `strconv.ParseFloat` starts by doing; the flag records a `-`. -/
def splitSign : List Char → Bool × List Char
  | '-' :: r => (true, r)
  | '+' :: r => (false, r)
  | r => (false, r)

/-- Model of `strconv.ParseFloat` on plain decimal notation over the
character sequence of the string, returning the exact rational value:
optional `+`/`-` sign, then digits with at most one `.`, at least one
digit overall (`"5"`, `"5."`, `".5"`, `"5.25"`). -/
def parseNumChars (cs : List Char) : Option ℚ :=
  let signed := splitSign cs
  let sgn : ℚ := if signed.1 then -1 else 1
  match signed.2.splitOn '.' with
  | [ip] =>
      if !ip.isEmpty && ip.all Char.isDigit then
        some (sgn * (digitsToNat ip : ℚ))
      else none
  | [ip, fp] =>
      if (!ip.isEmpty || !fp.isEmpty) && ip.all Char.isDigit && fp.all Char.isDigit then
        some (sgn * ((digitsToNat ip : ℚ) + (digitsToNat fp : ℚ) / (10 : ℚ) ^ fp.length))
      else none
  | _ => none

/-- Model of `strconv.ParseFloat` on a string, via its characters. -/
def parseNum (s : String) : Option ℚ :=
  parseNumChars s.toList

/-- Model of `strings.TrimSpace`: drop whitespace from both ends of the
character sequence. -/
def trimChars (cs : List Char) : List Char :=
  ((cs.dropWhile Char.isWhitespace).reverse.dropWhile Char.isWhitespace).reverse

/-- Model of Go `math.Round`: round to the nearest integer, half away from
zero. -/
def roundHalfAway (q : ℚ) : ℤ :=
  if 0 ≤ q then (q + 1 / 2).floor else -(-q + 1 / 2).floor

/-- Decimal digit characters of a positive natural number, most
significant first; the first argument is recursion fuel (any bound on the
number works). -/
def natCharsAux : Nat → Nat → List Char
  | _, 0 => []
  | 0, _ + 1 => []
  | fuel + 1, n + 1 =>
      natCharsAux fuel ((n + 1) / 10) ++ [Char.ofNat (48 + (n + 1) % 10)]

/-- Decimal digit characters of a natural number, most significant first
(`"0"` for zero): the digit stream `strconv.FormatFloat` emits for the
integer part. -/
def natChars (n : Nat) : List Char :=
  if n = 0 then ['0'] else natCharsAux n n

/-- The three decimal digits of `m % 1000`, most significant first. -/
def padTo3 (m : Nat) : List Char :=
  [Char.ofNat (48 + m / 100 % 10), Char.ofNat (48 + m / 10 % 10), Char.ofNat (48 + m % 10)]

/-- Drop trailing `'0'` characters. -/
def stripZeros (ds : List Char) : List Char :=
  (ds.reverse.dropWhile (fun c => c == '0')).reverse

/-- Character rendering of the rational `n / 1000` in fixed-then-shortest
decimal notation: sign, integer part, and the at-most-three fraction
digits with trailing zeros removed (and no `'.'` at all when the fraction
is zero) — the output shape of
`strconv.FormatFloat(float64(n)/1000, 'f', -1, 64)` (the float's negative
zero renders here as `"0"`). -/
def fmtQ3Chars (n : ℤ) : List Char :=
  let sign : List Char := if n < 0 then ['-'] else []
  let m := n.natAbs
  let ip := m / 1000
  let fp := m % 1000
  if fp = 0 then sign ++ natChars ip
  else sign ++ natChars ip ++ ['.'] ++ stripZeros (padTo3 fp)

/-- Embedding of `fracToDecimal` (main.go:480-494): trim the input, split
its characters on `'/'` (Go splits the string on `"/"`), parse both
parts, fail on wrong part count / parse failure / zero denominator; on
success return `1 + a/b` rounded at the third decimal and rendered
without trailing zeros, together with the trimmed input and an ok flag. -/
def fracToDecimal (odds : String) : String × String × Bool :=
  let tcs := trimChars odds.toList
  let t := String.mk tcs
  match tcs.splitOn '/' with
  | [sa, sb] =>
      match parseNumChars sa, parseNumChars sb with
      | some a, some b =>
          if b = 0 then ("", t, false)
          else
            let d : ℚ := 1 + a / b
            let n : ℤ := roundHalfAway (d * 1000)
            (String.mk (fmtQ3Chars n), t, true)
      | _, _ => ("", t, false)
  | _ => ("", t, false)

/-! ## Upstream live-odds records and the decoding fold -/

/-- A decoded upstream record: key/value pairs after `%v` stringification. -/
abbrev Item := List (String × String)

/-- Field access `fmt.Sprintf("%v", item[k])`: the stored value, or `"<nil>"` when the
key is absent. -/
def itemStr (item : Item) (k : String) : String :=
  match item.find? (fun p => p.1 == k) with
  | some p => p.2
  | none => "<nil>"

/-- Embedding of `getOddsField` (main.go:496-503): the value of the first present key
among `OD`, `ODD`, `ODDS`, in that order; `none` when none is present. -/
def getOddsField (item : Item) : Option String :=
  ["OD", "ODD", "ODDS"].findSome? (fun k => (item.find? (fun p => p.1 == k)).map (fun p => p.2))

/-- Insertion of a pair into a key-sorted association list. -/
def insertByKey (p : String × String) : List (String × String) → List (String × String)
  | [] => [p]
  | q :: rest => if p.1 ≤ q.1 then p :: q :: rest else q :: insertByKey p rest

/-- Key-sorted permutation of an association list (insertion sort). -/
def sortByKey : List (String × String) → List (String × String)
  | [] => []
  | p :: rest => insertByKey p (sortByKey rest)

/-- Model of `json.Marshal(item)`: a canonical key-sorted rendering (Go
marshals map keys in sorted order). -/
def marshalItem (item : Item) : String :=
  "\x7b" ++ String.intercalate ","
    ((sortByKey item).map (fun p => "\x22" ++ p.1 ++ "\x22:\x22" ++ p.2 ++ "\x22")) ++ "\x7d"

/-- One emitted live-odds row (`LiveOdd`, main.go:36-49). -/
structure LiveOdd where
  gameID : String
  sport : String
  bookmaker : String
  marketID : String
  marketName : String
  selectionID : String
  selectionName : String
  line : String
  priceDec : String
  priceFrac : String
  fetchedAt : Nat
  raw : String
deriving DecidableEq, Repr

/-- Fold state of the live-odds decoding pass: the current market context
and the rows emitted so far. -/
structure OddsAcc where
  currentMarketID : String
  currentMarketName : String
  odds : List LiveOdd
deriving DecidableEq, Repr

/-- One step of the stateful pass of `fetchLiveOdds` (main.go:348-381):
`"MG"` records update the market context, `"PA"` records with an odds key
emit a row tagged with the current context, everything else is ignored. -/
def liveOddsStep (gameID sport : String) (now : Nat) (acc : OddsAcc) (item : Item) : OddsAcc :=
  match itemStr item "type" with
  | "MG" =>
      { acc with
        currentMarketID := itemStr item "ID"
        currentMarketName := itemStr item "NA" }
  | "PA" =>
      match getOddsField item with
      | none => acc
      | some oddsStr =>
          let pr := fracToDecimal oddsStr
          let odd : LiveOdd :=
            { gameID := gameID
              sport := sport
              bookmaker := "bet365"
              marketID := acc.currentMarketID
              marketName := acc.currentMarketName
              selectionID := itemStr item "ID"
              selectionName := itemStr item "NA"
              line := itemStr item "HA"
              priceDec := pr.1
              priceFrac := pr.2.1
              fetchedAt := now
              raw := marshalItem item }
          { acc with odds := acc.odds ++ [odd] }
  | _ => acc

/-- Embedding of `fetchLiveOdds` (main.go:327-383), past the HTTP/decode step: the
single stateful pass over the decoded `results` groups, in order, with
the market context starting empty. -/
def fetchLiveOdds (gameID sport : String) (now : Nat) (results : List (List Item)) :
    List LiveOdd :=
  (results.foldl (fun (acc : OddsAcc) (group : List Item) =>
      group.foldl (liveOddsStep gameID sport now) acc)
    ⟨"", "", []⟩).odds

/-! ## Games and the persistence operations -/

/-- One game row (`Game`, main.go:23-34); `startsAt` is the optional
parsed timestamp. -/
structure Game where
  gameID : String
  sport : String
  bookmaker : String
  source : String
  league : String
  home : String
  away : String
  scores : String
  timeStatus : String
  startsAt : Option Nat
deriving DecidableEq, Repr

/-- The prune of `upsertGames`: `DELETE FROM games WHERE starts_at <
CURRENT_DATE` (a `NULL starts_at` never compares below the date, so such
rows are kept). -/
def deleteOldGames (today : Nat) (store : List Game) : List Game :=
  store.filter (fun g =>
    match g.startsAt with
    | some t => !(t < today : Bool)
    | none => true)

/-- One `INSERT ... ON CONFLICT (game_id) DO UPDATE` of `upsertGames`:
replace the row with the same `game_id`, or append. -/
def upsertGame (store : List Game) (g : Game) : List Game :=
  if store.any (fun r => r.gameID == g.gameID) then
    store.map (fun r => if r.gameID == g.gameID then g else r)
  else store ++ [g]

/-- Embedding of `upsertGames` (main.go:387-422): an empty batch returns at once;
otherwise prune stale rows, then upsert every game of the batch in
order. -/
def upsertGames (today : Nat) (store : List Game) (games : List Game) : List Game :=
  if games.length = 0 then store
  else games.foldl upsertGame (deleteOldGames today store)

/-- The prune of `insertLiveOdds`: `DELETE FROM liveodds WHERE fetched_at
< NOW() - INTERVAL '1 day'` (86400 seconds). -/
def deleteOldOdds (now : Nat) (store : List LiveOdd) : List LiveOdd :=
  store.filter (fun o => !(o.fetchedAt + 86400 < now : Bool))

/-- Key equality of `liveodds` rows: `(game_id, market_id, selection_id)`. -/
def oddKeyEq (r o : LiveOdd) : Bool :=
  r.gameID == o.gameID && r.marketID == o.marketID && r.selectionID == o.selectionID

/-- One `INSERT ... ON CONFLICT DO UPDATE` of `insertLiveOdds`: on a key
conflict every non-key column is overwritten, which (the key being equal)
replaces the row. -/
def upsertOdd (store : List LiveOdd) (o : LiveOdd) : List LiveOdd :=
  if store.any (fun r => oddKeyEq r o) then
    store.map (fun r => if oddKeyEq r o then o else r)
  else store ++ [o]

/-- Embedding of `insertLiveOdds` (main.go:424-463): an empty batch returns at once;
otherwise prune stale rows, then upsert every odd of the batch in
order. -/
def insertLiveOdds (now : Nat) (store : List LiveOdd) (odds : List LiveOdd) : List LiveOdd :=
  if odds.length = 0 then store
  else odds.foldl upsertOdd (deleteOldOdds now store)

/-! ## The two synchronizer loops -/

/-- The four upstream fetch outcomes `fetchAllGames` consults, in its
source order (HTTP transport and JSON decode are collapsed into the
`Except`). -/
structure Upstream where
  preSoccer : Except String (List Game)
  preTennis : Except String (List Game)
  liveSoccer : Except String (List Game)
  liveTennis : Except String (List Game)

/-- The list a fetch outcome contributes: its games on success, nothing on
failure. -/
def oksOf (r : Except String (List Game)) : List Game :=
  match r with
  | .ok gs => gs
  | .error _ => []

/-- Embedding of `fetchAllGames` (main.go:192-207): four sequential fetches, each
appended only when it succeeded; the function itself never fails. -/
def fetchAllGames (u : Upstream) : Except String (List Game) :=
  let all : List Game := []
  let all := match u.preSoccer with | .ok g => all ++ g | .error _ => all
  let all := match u.preTennis with | .ok g => all ++ g | .error _ => all
  let all := match u.liveSoccer with | .ok g => all ++ g | .error _ => all
  let all := match u.liveTennis with | .ok g => all ++ g | .error _ => all
  .ok all

/-- Specification-side description of the aggregate `fetchAllGames`
produces: the concatenation, in source order, of the lists of the fetches
that succeeded. -/
def aggGames (u : Upstream) : List Game :=
  oksOf u.preSoccer ++ oksOf u.preTennis ++ oksOf u.liveSoccer ++ oksOf u.liveTennis

/-- A JSON response of the service endpoints: status code, optional error
text, optional count payload. -/
structure SyncResp where
  status : Nat
  error : Option String
  count : Option Nat
deriving DecidableEq, Repr

/-- The `/sync-games` handler (main.go:91-102), with the persistence step
abstracted as a function that may fail: 500 on a fetch error, 500 on an
upsert error, otherwise 200 with the aggregated count. -/
def syncGamesResp (u : Upstream) (persist : List Game → Except String Unit) : SyncResp :=
  match fetchAllGames u with
  | .error e => ⟨500, some e, none⟩
  | .ok all =>
      match persist all with
      | .error e => ⟨500, some e, none⟩
      | .ok _ => ⟨200, none, some all.length⟩

/-- Environment of the `/update-liveodds` loop: the `sport` row lookup for
a game id, the decoded live-odds response for a game id, and whether the
batch insert for that game's rows fails at the store. -/
structure OddsEnv where
  sportRow : String → Except String String
  liveOddsResp : String → Except String (List (List Item))
  insertErr : String → Option String

/-- Embedding of `getGameSport` (main.go:318-325): the stored sport, or `""` together
with the error. -/
def getGameSport (env : OddsEnv) (id : String) : String × Option String :=
  match env.sportRow id with
  | .ok s => (s, none)
  | .error e => ("", some e)

/-- The per-game loop of the `/update-liveodds` handler (main.go:112-125):
the sport lookup's error is discarded, a fetch or insert failure skips to
the next id, and a success inserts the batch and adds its size to the
running count.  (On an insert failure the store is modelled unchanged;
partial effects of a failed batch are not modelled.) -/
def updateLiveOddsLoop (env : OddsEnv) (now : Nat) :
    List String → Nat × List LiveOdd → Nat × List LiveOdd
  | [], st => st
  | id :: rest, (inserted, store) =>
      let sport := (getGameSport env id).1
      match env.liveOddsResp id with
      | .error _ => updateLiveOddsLoop env now rest (inserted, store)
      | .ok results =>
          let odds := fetchLiveOdds id sport now results
          match env.insertErr id with
          | some _ => updateLiveOddsLoop env now rest (inserted, store)
          | none =>
              updateLiveOddsLoop env now rest
                (inserted + odds.length, insertLiveOdds now store odds)

/-- The count one id contributes to the `inserted` total: the size of its
decoded batch when both its fetch and its insert succeed, `0` otherwise. -/
def perGameCount (env : OddsEnv) (now : Nat) (id : String) : Nat :=
  match env.liveOddsResp id with
  | .error _ => 0
  | .ok results =>
      match env.insertErr id with
      | some _ => 0
      | none => (fetchLiveOdds id (getGameSport env id).1 now results).length

/-- A game row whose `startsAt` lies in the past (relative to day 10),
used in concrete instantiations. -/
def gStale : Game :=
  ⟨"g1", "soccer", "bet365", "pre", "L1", "H1", "A1", "", "0", some 5⟩

/-- A pre-match soccer sample row. -/
def gSoccer : Game :=
  ⟨"g2", "soccer", "bet365", "pre", "L2", "H2", "A2", "", "0", some 20⟩

/-- A live tennis sample row. -/
def gTennis : Game :=
  ⟨"g3", "tennis", "bet365", "live", "L3", "H3", "A3", "0-0", "1", none⟩

/-! ## Empty-batch behaviour -/

/-- C6: calling the games-upsert operation (`upsertGames`) or the
odds-upsert operation (`insertLiveOdds`) with an empty input list performs
no deletion and no insertion — the store is left completely unchanged (the
code returns success immediately, before touching the store). -/
theorem emptyBatchNoOp (today now : Nat) (storeG : List Game) (storeO : List LiveOdd) :
    upsertGames today storeG [] = storeG ∧ insertLiveOdds now storeO [] = storeO :=
  ⟨rfl, rfl⟩

/-! ## Market-context propagation -/

/-- C1: on the stream `[MG(M1,N1), PA(S1), PA(S2), MG(M2,N2), PA(S3)]`,
each `PA` carrying an odds key, exactly three `LiveOdd` rows are emitted,
the first two tagged with market `M1`/`N1` and the third with `M2`/`N2`:
every `MG` updates the running market context and every `PA` is tagged
with the most recent preceding `MG`'s id and name. -/
theorem marketContextPropagation (g sp : String) (now : Nat)
    (m1 n1 m2 n2 s1 sn1 la1 o1 s2 sn2 la2 o2 s3 sn3 la3 o3 : String) :
    fetchLiveOdds g sp now
      [[[("type", "MG"), ("ID", m1), ("NA", n1)],
        [("type", "PA"), ("ID", s1), ("NA", sn1), ("HA", la1), ("OD", o1)],
        [("type", "PA"), ("ID", s2), ("NA", sn2), ("HA", la2), ("OD", o2)],
        [("type", "MG"), ("ID", m2), ("NA", n2)],
        [("type", "PA"), ("ID", s3), ("NA", sn3), ("HA", la3), ("OD", o3)]]] =
      [{ gameID := g, sport := sp, bookmaker := "bet365",
         marketID := m1, marketName := n1,
         selectionID := s1, selectionName := sn1, line := la1,
         priceDec := (fracToDecimal o1).1, priceFrac := (fracToDecimal o1).2.1,
         fetchedAt := now,
         raw := marshalItem [("type", "PA"), ("ID", s1), ("NA", sn1), ("HA", la1), ("OD", o1)] },
       { gameID := g, sport := sp, bookmaker := "bet365",
         marketID := m1, marketName := n1,
         selectionID := s2, selectionName := sn2, line := la2,
         priceDec := (fracToDecimal o2).1, priceFrac := (fracToDecimal o2).2.1,
         fetchedAt := now,
         raw := marshalItem [("type", "PA"), ("ID", s2), ("NA", sn2), ("HA", la2), ("OD", o2)] },
       { gameID := g, sport := sp, bookmaker := "bet365",
         marketID := m2, marketName := n2,
         selectionID := s3, selectionName := sn3, line := la3,
         priceDec := (fracToDecimal o3).1, priceFrac := (fracToDecimal o3).2.1,
         fetchedAt := now,
         raw := marshalItem [("type", "PA"), ("ID", s3), ("NA", sn3), ("HA", la3), ("OD", o3)] }] :=
  rfl

/-- C9: a `PA` record carrying an odds key that appears before any `MG`
record is not skipped: it is emitted with `marketID` and `marketName` both
the empty string (the market context starts empty), while a `PA` after
the first `MG` picks up that market's context. -/
theorem paBeforeAnyMG (g sp : String) (now : Nat)
    (i1 na1 la1 o1 m n i2 na2 la2 o2 : String) :
    fetchLiveOdds g sp now
      [[[("type", "PA"), ("ID", i1), ("NA", na1), ("HA", la1), ("OD", o1)],
        [("type", "MG"), ("ID", m), ("NA", n)],
        [("type", "PA"), ("ID", i2), ("NA", na2), ("HA", la2), ("OD", o2)]]] =
      [{ gameID := g, sport := sp, bookmaker := "bet365",
         marketID := "", marketName := "",
         selectionID := i1, selectionName := na1, line := la1,
         priceDec := (fracToDecimal o1).1, priceFrac := (fracToDecimal o1).2.1,
         fetchedAt := now,
         raw := marshalItem [("type", "PA"), ("ID", i1), ("NA", na1), ("HA", la1), ("OD", o1)] },
       { gameID := g, sport := sp, bookmaker := "bet365",
         marketID := m, marketName := n,
         selectionID := i2, selectionName := na2, line := la2,
         priceDec := (fracToDecimal o2).1, priceFrac := (fracToDecimal o2).2.1,
         fetchedAt := now,
         raw := marshalItem [("type", "PA"), ("ID", i2), ("NA", na2), ("HA", la2), ("OD", o2)] }] :=
  rfl

/-! ## Odds-field priority -/

/-- C2: for a `PA` record the odds value is taken from the first present
key among `OD`, `ODD`, `ODDS` in that priority order (in particular a
record with both `OD` and `ODDS` is priced from the `OD` value), a `PA`
record carrying none of the three keys is skipped without emitting a row,
and a record whose type is neither `MG` nor `PA` is ignored. -/
theorem oddsFieldPriorityAndSkip (g sp : String) (now : Nat)
    (i na la vOD vODD vODDS t : String) (hMG : t ≠ "MG") (hPA : t ≠ "PA") :
    getOddsField [("type", "PA"), ("ID", i), ("NA", na),
      ("OD", vOD), ("ODD", vODD), ("ODDS", vODDS)] = some vOD
    ∧ getOddsField [("type", "PA"), ("ID", i), ("NA", na),
      ("ODD", vODD), ("ODDS", vODDS)] = some vODD
    ∧ getOddsField [("type", "PA"), ("ID", i), ("NA", na), ("ODDS", vODDS)] = some vODDS
    ∧ fetchLiveOdds g sp now
        [[[("type", "PA"), ("ID", i), ("NA", na), ("HA", la), ("OD", vOD), ("ODDS", vODDS)]]] =
        [{ gameID := g, sport := sp, bookmaker := "bet365",
           marketID := "", marketName := "",
           selectionID := i, selectionName := na, line := la,
           priceDec := (fracToDecimal vOD).1, priceFrac := (fracToDecimal vOD).2.1,
           fetchedAt := now,
           raw := marshalItem [("type", "PA"), ("ID", i), ("NA", na), ("HA", la),
             ("OD", vOD), ("ODDS", vODDS)] }]
    ∧ fetchLiveOdds g sp now [[[("type", "PA"), ("ID", i), ("NA", na), ("HA", la)]]] = []
    ∧ fetchLiveOdds g sp now [[[("type", t), ("ID", i), ("NA", na), ("HA", la), ("OD", vOD)]]] = [] := by
  refine ⟨rfl, rfl, rfl, rfl, rfl, ?_⟩
  show (liveOddsStep g sp now ⟨"", "", []⟩
    [("type", t), ("ID", i), ("NA", na), ("HA", la), ("OD", vOD)]).odds = []
  unfold liveOddsStep
  have hty : itemStr [("type", t), ("ID", i), ("NA", na), ("HA", la), ("OD", vOD)] "type" = t := rfl
  rw [hty]
  split
  · exact absurd rfl hMG
  · exact absurd rfl hPA
  · rfl

/-- Concrete instantiation of `oddsFieldPriorityAndSkip`. -/
theorem oddsFieldPriorityAndSkipWitness :
    getOddsField [("type", "PA"), ("ID", "i"), ("NA", "n"),
      ("OD", "1/2"), ("ODD", "2/3"), ("ODDS", "3/4")] = some "1/2"
    ∧ fetchLiveOdds "g" "s" 7 [[[("type", "OT"), ("ID", "i"), ("NA", "n"),
        ("HA", "l"), ("OD", "1/2")]]] = [] := by
  have h := oddsFieldPriorityAndSkip "g" "s" 7 "i" "n" "l" "1/2" "2/3" "3/4" "OT"
    (by decide) (by decide)
  exact ⟨h.1, h.2.2.2.2.2⟩

/-! ## Staleness eviction for games -/

/-- Upsert membership: a row of `upsertGame store g` is a row of `store`
or is `g` itself. -/
theorem mem_upsertGame {store : List Game} {g r : Game} (h : r ∈ upsertGame store g) :
    r ∈ store ∨ r = g := by
  unfold upsertGame at h
  split at h
  · rcases List.mem_map.1 h with ⟨x, hx, hxe⟩
    by_cases hid : (x.gameID == g.gameID) = true
    · rw [if_pos hid] at hxe
      exact Or.inr hxe.symm
    · rw [if_neg hid] at hxe
      exact Or.inl (hxe ▸ hx)
  · rcases List.mem_append.1 h with hx | hx
    · exact Or.inl hx
    · exact Or.inr (List.mem_singleton.1 hx)

/-- Batch-upsert membership: a row of the fold is a pre-existing row or a
row of the batch. -/
theorem mem_foldl_upsertGame {games store : List Game} {r : Game}
    (h : r ∈ games.foldl upsertGame store) : r ∈ store ∨ r ∈ games := by
  induction games generalizing store with
  | nil => exact Or.inl h
  | cons g gs ih =>
    rcases ih (h : r ∈ gs.foldl upsertGame (upsertGame store g)) with hs | hg
    · rcases mem_upsertGame hs with hs | hs
      · exact Or.inl hs
      · exact Or.inr (hs ▸ List.mem_cons_self g gs)
    · exact Or.inr (List.mem_cons_of_mem g hg)

/-- Rows surviving the prune are not stale. -/
theorem not_stale_of_mem_deleteOldGames {today : Nat} {store : List Game} {r : Game} {t : Nat}
    (h : r ∈ deleteOldGames today store) (hst : r.startsAt = some t) : ¬ t < today := by
  have hp := List.of_mem_filter h
  rw [hst] at hp
  simpa using hp

/-- C5, counterexample: the claim "every game row whose `starts_at` is
before the current date at sync time is absent from the store after a
Game Synchronizer run" is false on the code — with an empty aggregated
batch `upsertGames` returns before deleting anything, so a pre-existing
stale row survives, and a nonempty batch re-inserts any stale game it
itself contains. -/
theorem gameEvictionCounterexample :
    gStale.startsAt = some 5 ∧ 5 < 10
    ∧ upsertGames 10 [gStale] [] = [gStale]
    ∧ upsertGames 10 [] [gSoccer, gStale] = [gSoccer, gStale] :=
  ⟨rfl, by decide, rfl, rfl⟩

/-- C5, amended: when the aggregated batch is nonempty, every pre-existing
row with `starts_at` before the current date is purged before the writes;
hence any row with a stale `starts_at` still present after the
games-upsert comes from the batch itself. -/
theorem gameEvictionAmended (today : Nat) (store games : List Game) (r : Game) (t : Nat)
    (hne : games ≠ []) (hmem : r ∈ upsertGames today store games)
    (hst : r.startsAt = some t) (ht : t < today) : r ∈ games := by
  unfold upsertGames at hmem
  rw [if_neg (by simpa [List.length_eq_zero] using hne)] at hmem
  rcases mem_foldl_upsertGame hmem with hd | hg
  · exact absurd ht (not_stale_of_mem_deleteOldGames hd hst)
  · exact hg

/-- Concrete instantiation of `gameEvictionAmended`. -/
theorem gameEvictionAmendedWitness : gStale ∈ ([gStale] : List Game) :=
  gameEvictionAmended 10 [] [gStale] gStale 5 (by decide) (by decide) rfl (by decide)

/-! ## Best-effort aggregation of syncGames -/

/-- C7: `fetchAllGames` proceeds sequentially over pre-match then
live-match for soccer and tennis, ignores any single fetch failure
(never aborting the rest — it always succeeds), and returns the
concatenation of the successful lists; the handler then reports the
total aggregated count on success of the persistence step, or that
step's failure. -/
theorem syncGamesBestEffort (u : Upstream) (persist : List Game → Except String Unit) :
    fetchAllGames u = Except.ok (aggGames u)
    ∧ (persist (aggGames u) = Except.ok () →
        syncGamesResp u persist = ⟨200, none, some (aggGames u).length⟩)
    ∧ (∀ e, persist (aggGames u) = Except.error e →
        syncGamesResp u persist = ⟨500, some e, none⟩) := by
  obtain ⟨a, b, c, d⟩ := u
  have h1 : fetchAllGames ⟨a, b, c, d⟩ = Except.ok (aggGames ⟨a, b, c, d⟩) := by
    cases a <;> cases b <;> cases c <;> cases d <;> simp [fetchAllGames, aggGames, oksOf]
  refine ⟨h1, ?_, ?_⟩
  · intro hp
    simp [syncGamesResp, h1, hp]
  · intro e hp
    simp [syncGamesResp, h1, hp]

/-- Concrete instantiation of `syncGamesBestEffort`: one failing fetch is
ignored and the two fetched games are aggregated and counted. -/
theorem syncGamesBestEffortWitness :
    fetchAllGames ⟨Except.error "boom", Except.ok [gSoccer], Except.ok [], Except.ok [gTennis]⟩ =
      Except.ok [gSoccer, gTennis]
    ∧ syncGamesResp ⟨Except.error "boom", Except.ok [gSoccer], Except.ok [], Except.ok [gTennis]⟩
        (fun _ => Except.ok ()) = ⟨200, none, some 2⟩ := by
  have h := syncGamesBestEffort
    ⟨Except.error "boom", Except.ok [gSoccer], Except.ok [], Except.ok [gTennis]⟩
    (fun _ => Except.ok ())
  exact ⟨by simpa [aggGames, oksOf] using h.1, by simpa [aggGames, oksOf] using h.2.1 rfl⟩

/-! ## Per-game isolation of the live-odds sync loop -/

/-- C8: the live-odds loop processes every game id in order; a fetch or
insert failure for one id contributes nothing and does not affect the
remaining ids, so the reported total is the sum of the batch sizes of the
successful games; and (when the inserts succeed) each successful game's
batch is persisted immediately, in id order. -/
theorem liveOddsSyncIsolation (env : OddsEnv) (now : Nat) (ids : List String)
    (inserted : Nat) (store : List LiveOdd) :
    (updateLiveOddsLoop env now ids (inserted, store)).1 =
      inserted + (ids.map (perGameCount env now)).sum
    ∧ ((∀ id ∈ ids, env.insertErr id = none) →
        (updateLiveOddsLoop env now ids (inserted, store)).2 =
          ids.foldl (fun st id =>
            match env.liveOddsResp id with
            | .error _ => st
            | .ok results =>
                insertLiveOdds now st (fetchLiveOdds id (getGameSport env id).1 now results))
            store) := by
  constructor
  · induction ids generalizing inserted store with
    | nil => simp [updateLiveOddsLoop]
    | cons id rest ih =>
      simp only [updateLiveOddsLoop, List.map_cons, List.sum_cons]
      cases hr : env.liveOddsResp id with
      | error e =>
        simp only [hr, ih, perGameCount]
        omega
      | ok results =>
        cases hi : env.insertErr id with
        | none =>
          simp only [hr, hi, ih, perGameCount]
          omega
        | some e =>
          simp only [hr, hi, ih, perGameCount]
          omega
  · intro hins
    induction ids generalizing inserted store with
    | nil => simp [updateLiveOddsLoop]
    | cons id rest ih =>
      have hid : env.insertErr id = none := hins id (List.mem_cons_self id rest)
      have hrest : ∀ i ∈ rest, env.insertErr i = none :=
        fun i hi => hins i (List.mem_cons_of_mem id hi)
      simp only [updateLiveOddsLoop, List.foldl_cons]
      cases hr : env.liveOddsResp id with
      | error e =>
        simp only [hr]
        exact ih _ _ hrest
      | ok results =>
        simp only [hr, hid]
        exact ih _ _ hrest

/-- Concrete instantiation of `liveOddsSyncIsolation`: a failing fetch for
the first id does not stop the second id from being fetched, persisted and
counted. -/
theorem liveOddsSyncIsolationWitness :
    (updateLiveOddsLoop
      ⟨fun _ => Except.ok "soccer",
       fun id => if id = "a" then Except.error "down"
         else Except.ok [[[("type", "PA"), ("ID", "i"), ("NA", "n"), ("HA", "l"), ("OD", "5/2")]]],
       fun _ => none⟩ 7 ["a", "b"] (0, [])).1 = 1
    ∧ (updateLiveOddsLoop
      ⟨fun _ => Except.ok "soccer",
       fun id => if id = "a" then Except.error "down"
         else Except.ok [[[("type", "PA"), ("ID", "i"), ("NA", "n"), ("HA", "l"), ("OD", "5/2")]]],
       fun _ => none⟩ 7 ["a", "b"] (0, [])).2 =
      insertLiveOdds 7 [] (fetchLiveOdds "b" "soccer" 7
        [[[("type", "PA"), ("ID", "i"), ("NA", "n"), ("HA", "l"), ("OD", "5/2")]]]) := by
  have h := liveOddsSyncIsolation
    ⟨fun _ => Except.ok "soccer",
     fun id => if id = "a" then Except.error "down"
       else Except.ok [[[("type", "PA"), ("ID", "i"), ("NA", "n"), ("HA", "l"), ("OD", "5/2")]]],
     fun _ => none⟩ 7 ["a", "b"] 0 []
  refine ⟨?_, ?_⟩
  · rw [h.1]
    decide
  · rw [h.2 (fun id _ => rfl)]
    rfl

/-! ## Discarded sport-lookup errors -/

/-- Step invariant: a row present after one step of the live-odds pass was
already present or carries the sport the pass was called with. -/
theorem sport_of_mem_liveOddsStep {g sp : String} {now : Nat} {acc : OddsAcc} {item : Item}
    {o : LiveOdd} (h : o ∈ (liveOddsStep g sp now acc item).odds) :
    o ∈ acc.odds ∨ o.sport = sp := by
  unfold liveOddsStep at h
  split at h
  · exact Or.inl h
  · split at h
    · exact Or.inl h
    · simp only at h
      rcases List.mem_append.1 h with h | h
      · exact Or.inl h
      · exact Or.inr (by rw [List.mem_singleton.1 h])
  · exact Or.inl h

/-- Group invariant: a row present after folding a group was already
present or carries the pass's sport. -/
theorem sport_of_mem_foldl_group {g sp : String} {now : Nat} {group : List Item}
    {acc : OddsAcc} {o : LiveOdd}
    (h : o ∈ (group.foldl (liveOddsStep g sp now) acc).odds) :
    o ∈ acc.odds ∨ o.sport = sp := by
  induction group generalizing acc with
  | nil => exact Or.inl h
  | cons it rest ih =>
    rcases ih (h : o ∈ (rest.foldl (liveOddsStep g sp now) (liveOddsStep g sp now acc it)).odds)
      with h | h
    · exact sport_of_mem_liveOddsStep h
    · exact Or.inr h

/-- Every row `fetchLiveOdds` emits carries the sport it was called with. -/
theorem sport_of_mem_fetchLiveOdds {g sp : String} {now : Nat} {results : List (List Item)}
    {o : LiveOdd} (h : o ∈ fetchLiveOdds g sp now results) : o.sport = sp := by
  unfold fetchLiveOdds at h
  have aux : ∀ (rs : List (List Item)) (acc : OddsAcc),
      o ∈ (rs.foldl (fun (acc : OddsAcc) (group : List Item) =>
        group.foldl (liveOddsStep g sp now) acc) acc).odds →
      o ∈ acc.odds ∨ o.sport = sp := by
    intro rs
    induction rs with
    | nil => exact fun acc h => Or.inl h
    | cons gr rest ih =>
      intro acc h
      rcases ih (gr.foldl (liveOddsStep g sp now) acc) h with h | h
      · exact sport_of_mem_foldl_group h
      · exact Or.inr h
  rcases aux results ⟨"", "", []⟩ h with h | h
  · simp at h
  · exact h

/-- C10: an error from the per-game sport lookup is discarded — the game
is not skipped; its odds are fetched with `sport = ""` and every row
emitted for it carries the empty sport, the batch being persisted and
counted as usual. -/
theorem sportLookupErrorDiscarded (env : OddsEnv) (now : Nat) (id e : String)
    (results : List (List Item)) (inserted : Nat) (store : List LiveOdd)
    (hs : env.sportRow id = Except.error e) (hr : env.liveOddsResp id = Except.ok results)
    (hi : env.insertErr id = none) :
    updateLiveOddsLoop env now [id] (inserted, store) =
      (inserted + (fetchLiveOdds id "" now results).length,
        insertLiveOdds now store (fetchLiveOdds id "" now results))
    ∧ ∀ o ∈ fetchLiveOdds id "" now results, o.sport = "" := by
  have hsp : (getGameSport env id).1 = "" := by
    simp [getGameSport, hs]
  constructor
  · simp only [updateLiveOddsLoop, hr, hi, hsp]
  · exact fun o ho => sport_of_mem_fetchLiveOdds ho

/-- Concrete instantiation of `sportLookupErrorDiscarded`. -/
theorem sportLookupErrorDiscardedWitness :
    updateLiveOddsLoop
      ⟨fun _ => Except.error "no row",
       fun _ => Except.ok [[[("type", "PA"), ("ID", "i"), ("NA", "n"), ("HA", "l"), ("OD", "5/2")]]],
       fun _ => none⟩ 7 ["g1"] (0, []) =
      (1, [{ gameID := "g1", sport := "", bookmaker := "bet365",
             marketID := "", marketName := "",
             selectionID := "i", selectionName := "n", line := "l",
             priceDec := (fracToDecimal "5/2").1, priceFrac := (fracToDecimal "5/2").2.1,
             fetchedAt := 7,
             raw := marshalItem [("type", "PA"), ("ID", "i"), ("NA", "n"),
               ("HA", "l"), ("OD", "5/2")] }]) := by
  have h := sportLookupErrorDiscarded
    ⟨fun _ => Except.error "no row",
     fun _ => Except.ok [[[("type", "PA"), ("ID", "i"), ("NA", "n"), ("HA", "l"), ("OD", "5/2")]]],
     fun _ => none⟩ 7 "g1" "no row"
    [[[("type", "PA"), ("ID", "i"), ("NA", "n"), ("HA", "l"), ("OD", "5/2")]]] 0 []
    rfl rfl rfl
  exact h.1.trans (by rfl)

/-! ## Digit-string lemmas for the converter -/

/-- Appending a digit multiplies the accumulated value by ten. -/
theorem digitsToNat_append (ds : List Char) (c : Char) :
    digitsToNat (ds ++ [c]) = digitsToNat ds * 10 + (c.toNat - 48) := by
  simp [digitsToNat, List.foldl_append]

/-- Character code of a decimal digit. -/
theorem charToNat_digit (d : Nat) (h : d < 10) : (Char.ofNat (48 + d)).toNat = 48 + d := by
  interval_cases d <;> decide

/-- Decimal digit characters satisfy `Char.isDigit`. -/
theorem charIsDigit_digit (d : Nat) (h : d < 10) : (Char.ofNat (48 + d)).isDigit = true := by
  interval_cases d <;> decide

/-- A digit character is not a punctuation or sign character. -/
theorem isDigit_ne (c : Char) (h : c.isDigit = true) : c ≠ '.' ∧ c ≠ '-' ∧ c ≠ '+' := by
  refine ⟨?_, ?_, ?_⟩ <;> rintro rfl <;> simp at h

/-- With enough fuel, `natCharsAux` produces the base-ten digit characters
of `n`, most significant first. -/
theorem natCharsAux_eq (fuel : Nat) : ∀ n : Nat, n ≤ fuel →
    natCharsAux fuel n = ((Nat.digits 10 n).reverse).map (fun d => Char.ofNat (48 + d)) := by
  induction fuel with
  | zero =>
    intro n hn
    obtain rfl : n = 0 := Nat.le_zero.1 hn
    simp [natCharsAux]
  | succ fuel ih =>
    intro n hn
    match n with
    | 0 => simp [natCharsAux]
    | m + 1 =>
      have hdiv : (m + 1) / 10 ≤ fuel := by
        have := Nat.div_lt_self (Nat.succ_pos m) (by norm_num : 1 < 10)
        omega
      rw [show natCharsAux (fuel + 1) (m + 1) =
        natCharsAux fuel ((m + 1) / 10) ++ [Char.ofNat (48 + (m + 1) % 10)] from rfl,
        ih _ hdiv, Nat.digits_def' (by norm_num : 1 < 10) (Nat.succ_pos m)]
      simp

/-- Value of the digit rendering of a little-endian digit list. -/
theorem digitsToNat_map_reverse (L : List Nat) (hL : ∀ d ∈ L, d < 10) :
    digitsToNat ((L.reverse).map (fun d => Char.ofNat (48 + d))) = Nat.ofDigits 10 L := by
  induction L with
  | nil => simp [digitsToNat, Nat.ofDigits_nil]
  | cons d rest ih =>
    have hd : d < 10 := hL d (List.mem_cons_self d rest)
    have hrest : ∀ x ∈ rest, x < 10 := fun x hx => hL x (List.mem_cons_of_mem d hx)
    rw [List.reverse_cons, List.map_append, List.map_singleton, digitsToNat_append,
      ih hrest, charToNat_digit d hd, Nat.ofDigits_cons]
    omega

/-- Round trip: the digit rendering of `n` evaluates back to `n`. -/
theorem digitsToNat_natChars (n : Nat) : digitsToNat (natChars n) = n := by
  by_cases hn : n = 0
  · subst hn; decide
  · rw [natChars, if_neg hn, natCharsAux_eq n n le_rfl,
      digitsToNat_map_reverse _ (fun d hd => Nat.digits_lt_base (by norm_num) hd),
      Nat.ofDigits_digits]

/-- Every character of `natChars n` is a decimal digit. -/
theorem natChars_all_digit (n : Nat) : ∀ c ∈ natChars n, c.isDigit = true := by
  intro c hc
  by_cases hn : n = 0
  · subst hn
    simp [natChars] at hc
    subst hc; decide
  · rw [natChars, if_neg hn, natCharsAux_eq n n le_rfl] at hc
    rcases List.mem_map.1 hc with ⟨d, hd, rfl⟩
    exact charIsDigit_digit d (Nat.digits_lt_base (by norm_num) (List.mem_reverse.1 hd))

/-- The digit rendering of `n` is never empty. -/
theorem natChars_ne_nil (n : Nat) : natChars n ≠ [] := by
  by_cases hn : n = 0
  · subst hn; decide
  · rw [natChars, if_neg hn, natCharsAux_eq n n le_rfl]
    simp [Nat.digits_ne_nil_iff_ne_zero.2 hn]

/-- Every character of `padTo3 m` is a decimal digit. -/
theorem padTo3_all_digit (m : Nat) : ∀ c ∈ padTo3 m, c.isDigit = true := by
  intro c hc
  simp only [padTo3, List.mem_cons, List.not_mem_nil, or_false] at hc
  rcases hc with rfl | rfl | rfl
  · exact charIsDigit_digit _ (Nat.mod_lt _ (by norm_num))
  · exact charIsDigit_digit _ (Nat.mod_lt _ (by norm_num))
  · exact charIsDigit_digit _ (Nat.mod_lt _ (by norm_num))

/-- Value of the three-digit rendering. -/
theorem digitsToNat_padTo3 (m : Nat) : digitsToNat (padTo3 m) = m % 1000 := by
  have h1 : m / 100 % 10 < 10 := Nat.mod_lt _ (by norm_num)
  have h2 : m / 10 % 10 < 10 := Nat.mod_lt _ (by norm_num)
  have h3 : m % 10 < 10 := Nat.mod_lt _ (by norm_num)
  simp only [padTo3, digitsToNat, List.foldl_cons, List.foldl_nil,
    charToNat_digit _ h1, charToNat_digit _ h2, charToNat_digit _ h3]
  omega

/-- Stripping trailing zeros decomposes a digit string into the stripped
part followed by zeros. -/
theorem stripZeros_decomp (ds : List Char) :
    ∃ k, ds = stripZeros ds ++ List.replicate k '0' := by
  refine ⟨(ds.reverse.takeWhile (fun c => c == '0')).length, ?_⟩
  have htake : ds.reverse.takeWhile (fun c => c == '0') =
      List.replicate (ds.reverse.takeWhile (fun c => c == '0')).length '0' :=
    List.eq_replicate_of_mem (fun c hc => by
      have := List.mem_takeWhile_imp hc
      exact eq_of_beq this)
  calc ds = ds.reverse.reverse := (List.reverse_reverse ds).symm
    _ = (ds.reverse.takeWhile (fun c => c == '0') ++
          ds.reverse.dropWhile (fun c => c == '0')).reverse := by
        rw [List.takeWhile_append_dropWhile]
    _ = stripZeros ds ++ List.replicate _ '0' := by
        rw [List.reverse_append, stripZeros, htake, List.reverse_replicate]
        simp

/-- Trailing zeros do not change the digit value except by powers of ten. -/
theorem digitsToNat_append_replicate (xs : List Char) (k : Nat) :
    digitsToNat (xs ++ List.replicate k '0') = digitsToNat xs * 10 ^ k := by
  induction k generalizing xs with
  | zero => simp
  | succ k ih =>
    rw [show List.replicate (k + 1) '0' = '0' :: List.replicate k '0' from rfl,
      show xs ++ '0' :: List.replicate k '0' = (xs ++ ['0']) ++ List.replicate k '0' by simp,
      ih, digitsToNat_append]
    have : ('0').toNat - 48 = 0 := by decide
    rw [this]
    ring

/-- The stripped digit string is made of characters of the original. -/
theorem mem_of_mem_stripZeros {ds : List Char} {c : Char} (h : c ∈ stripZeros ds) : c ∈ ds := by
  obtain ⟨k, hk⟩ := stripZeros_decomp ds
  rw [hk]
  exact List.mem_append_left _ h

/-- A nonempty stripped digit string does not end in `'0'`. -/
theorem stripZeros_getLast?_ne_zero (ds : List Char) :
    (stripZeros ds).getLast? ≠ some '0' := by
  intro h
  rw [stripZeros, List.getLast?_reverse] at h
  have hne : ds.reverse.dropWhile (fun c => c == '0') ≠ [] := by
    intro hnil
    rw [hnil] at h
    cases h
  have hlen : 0 < (ds.reverse.dropWhile (fun c => c == '0')).length :=
    List.length_pos.2 hne
  have hget := List.dropWhile_get_zero_not (fun c => c == '0') ds.reverse hlen
  have hhead : (ds.reverse.dropWhile (fun c => c == '0')).head? = some '0' := h
  rw [List.head?_eq_head hne] at hhead
  have : (ds.reverse.dropWhile (fun c => c == '0')).get ⟨0, hlen⟩ = '0' := by
    rw [List.get_eq_getElem, ← List.head_eq_getElem_zero hne]
    exact Option.some.inj hhead
  rw [this] at hget
  simp at hget

/-- Splitting a list that does not contain the separator yields that list
alone. -/
theorem splitOn_no_sep {c : Char} {l : List Char} (h : c ∉ l) : l.splitOn c = [l] := by
  simp only [List.splitOn]
  exact List.splitOnP_eq_single _ _ (fun x hx => by
    simp only [beq_iff_eq]
    rintro rfl
    exact h hx)

/-- Splitting around a single separator occurrence yields the two flanks. -/
theorem splitOn_sep_append {xs ys : List Char} {c : Char} (hx : c ∉ xs) (hy : c ∉ ys) :
    (xs ++ c :: ys).splitOn c = [xs, ys] := by
  simp only [List.splitOn]
  rw [List.splitOnP_first (fun x => x == c) xs
    (fun x hxm => by simp only [beq_iff_eq]; rintro rfl; exact hx hxm) c (by simp) ys]
  rw [List.splitOnP_eq_single _ _
    (fun x hxm => by simp only [beq_iff_eq]; rintro rfl; exact hy hxm)]

/-- A sequence starting with a digit has no sign to consume. -/
theorem splitSign_digit_head (c : Char) (r : List Char) (h : c.isDigit = true) :
    splitSign (c :: r) = (false, c :: r) := by
  have h1 : c ≠ '-' := (isDigit_ne c h).2.1
  have h2 : c ≠ '+' := (isDigit_ne c h).2.2
  unfold splitSign
  split
  · next heq =>
    cases heq
    exact absurd rfl h1
  · next heq =>
    cases heq
    exact absurd rfl h2
  · rfl

/-- Facts about the stripped fraction digits of a nonzero `fp < 1000`:
they are nonempty decimal digits whose value over their length recovers
`fp / 1000`. -/
theorem stripZeros_padTo3_facts (fp : Nat) (hlt : fp < 1000) (hne : fp ≠ 0) :
    stripZeros (padTo3 fp) ≠ []
    ∧ (∀ c ∈ stripZeros (padTo3 fp), c.isDigit = true)
    ∧ (digitsToNat (stripZeros (padTo3 fp)) : ℚ) /
        (10 : ℚ) ^ (stripZeros (padTo3 fp)).length = (fp : ℚ) / 1000 := by
  obtain ⟨k, hk⟩ := stripZeros_decomp (padTo3 fp)
  have hval : digitsToNat (stripZeros (padTo3 fp)) * 10 ^ k = fp := by
    have hpad := digitsToNat_padTo3 fp
    rw [Nat.mod_eq_of_lt hlt] at hpad
    calc digitsToNat (stripZeros (padTo3 fp)) * 10 ^ k
        = digitsToNat (stripZeros (padTo3 fp) ++ List.replicate k '0') :=
          (digitsToNat_append_replicate _ _).symm
      _ = digitsToNat (padTo3 fp) := by rw [← hk]
      _ = fp := hpad
  have hklen : (stripZeros (padTo3 fp)).length + k = 3 := by
    have := congrArg List.length hk
    simp only [List.length_append, List.length_replicate] at this
    have hl3 : (padTo3 fp).length = 3 := rfl
    omega
  refine ⟨?_, ?_, ?_⟩
  · intro hnil
    rw [hnil] at hval
    have : digitsToNat ([] : List Char) = 0 := rfl
    rw [this, Nat.zero_mul] at hval
    exact hne hval.symm
  · exact fun c hc => padTo3_all_digit fp c (mem_of_mem_stripZeros hc)
  · have hcast : (digitsToNat (stripZeros (padTo3 fp)) : ℚ) * (10 : ℚ) ^ k = (fp : ℚ) := by
      exact_mod_cast congrArg (fun x : Nat => (x : ℚ)) hval
    have hpow : (1000 : ℚ) = (10 : ℚ) ^ (stripZeros (padTo3 fp)).length * (10 : ℚ) ^ k := by
      rw [← pow_add, hklen]
      norm_num
    rw [← hcast, hpow]
    have hz1 : ((10 : ℚ) ^ (stripZeros (padTo3 fp)).length) ≠ 0 := by positivity
    have hz2 : ((10 : ℚ) ^ k) ≠ 0 := by positivity
    field_simp
    ring

/-- The digit rendering of the integer part is nonempty and all digits,
as a Boolean guard. -/
theorem natChars_guard (ipn : Nat) :
    (!(natChars ipn).isEmpty && (natChars ipn).all Char.isDigit) = true := by
  simp only [Bool.and_eq_true, List.all_eq_true]
  refine ⟨?_, natChars_all_digit ipn⟩
  rcases hnc : natChars ipn with _ | _
  · exact absurd hnc (natChars_ne_nil ipn)
  · rfl

/-- The separator `'.'` does not occur among the integer-part digits. -/
theorem dot_not_mem_natChars (ipn : Nat) : '.' ∉ natChars ipn := fun hmem => by
  have := natChars_all_digit ipn '.' hmem
  simp at this

/-- A rendered sign followed by the digit rendering is split by the sign
reader into the sign flag and the digits. -/
theorem splitSign_sign_digits (sgnNeg : Bool) (ipn : Nat) (tail : List Char) :
    splitSign ((if sgnNeg then ['-'] else []) ++ (natChars ipn ++ tail)) =
      (sgnNeg, natChars ipn ++ tail) := by
  obtain ⟨c, r, hcr⟩ : ∃ c r, natChars ipn = c :: r := by
    rcases hnc : natChars ipn with _ | ⟨c, r⟩
    · exact absurd hnc (natChars_ne_nil ipn)
    · exact ⟨c, r, rfl⟩
  have hcd : c.isDigit = true := natChars_all_digit ipn c (hcr ▸ List.mem_cons_self c r)
  cases sgnNeg
  · simp only [Bool.false_eq_true, if_false, List.nil_append]
    rw [hcr, List.cons_append]
    exact splitSign_digit_head c _ hcd
  · rfl

/-- Evaluation of the parser on a rendered integer: sign and digit
rendering parse back to the signed value. -/
theorem parseNumChars_render_int (sgnNeg : Bool) (ipn : Nat) :
    parseNumChars ((if sgnNeg then ['-'] else []) ++ natChars ipn) =
      some ((if sgnNeg then (-1 : ℚ) else 1) * (ipn : ℚ)) := by
  have hsign := splitSign_sign_digits sgnNeg ipn []
  rw [List.append_nil] at hsign
  rw [parseNumChars]
  simp only [hsign, splitOn_no_sep (dot_not_mem_natChars ipn)]
  rw [if_pos (natChars_guard ipn), digitsToNat_natChars]

/-- Evaluation of the parser on a rendered decimal fraction: sign, digit
rendering, dot and fraction digits parse back to the signed value. -/
theorem parseNumChars_render_frac (sgnNeg : Bool) (ipn : Nat) (fr : List Char)
    (hfr : ∀ c ∈ fr, c.isDigit = true) :
    parseNumChars ((if sgnNeg then ['-'] else []) ++ (natChars ipn ++ '.' :: fr)) =
      some ((if sgnNeg then (-1 : ℚ) else 1) *
        ((ipn : ℚ) + (digitsToNat fr : ℚ) / (10 : ℚ) ^ fr.length)) := by
  have hsign := splitSign_sign_digits sgnNeg ipn ('.' :: fr)
  have hsplit : (natChars ipn ++ '.' :: fr).splitOn '.' = [natChars ipn, fr] :=
    splitOn_sep_append (dot_not_mem_natChars ipn) (fun hmem => by
      have := hfr '.' hmem
      simp at this)
  have hguard : ((!(natChars ipn).isEmpty || !fr.isEmpty) &&
      (natChars ipn).all Char.isDigit && fr.all Char.isDigit) = true := by
    simp only [Bool.and_eq_true, Bool.or_eq_true, List.all_eq_true]
    have h1 := natChars_guard ipn
    simp only [Bool.and_eq_true, List.all_eq_true] at h1
    exact ⟨⟨Or.inl h1.1, h1.2⟩, hfr⟩
  rw [parseNumChars]
  simp only [hsign, hsplit]
  rw [if_pos hguard, digitsToNat_natChars]

/-- Parsing a rendered nonnegative integer. -/
theorem parse_int_pos (ipn : Nat) : parseNumChars (natChars ipn) = some ((ipn : ℚ)) := by
  simpa using parseNumChars_render_int false ipn

/-- Parsing a rendered negated integer. -/
theorem parse_int_neg (ipn : Nat) :
    parseNumChars ('-' :: natChars ipn) = some (-(ipn : ℚ)) := by
  simpa using parseNumChars_render_int true ipn

/-- Parsing a rendered nonnegative decimal fraction. -/
theorem parse_frac_pos (ipn : Nat) (fr : List Char) (hfr : ∀ c ∈ fr, c.isDigit = true) :
    parseNumChars (natChars ipn ++ '.' :: fr) =
      some ((ipn : ℚ) + (digitsToNat fr : ℚ) / (10 : ℚ) ^ fr.length) := by
  simpa using parseNumChars_render_frac false ipn fr hfr

/-- Parsing a rendered negated decimal fraction. -/
theorem parse_frac_neg (ipn : Nat) (fr : List Char) (hfr : ∀ c ∈ fr, c.isDigit = true) :
    parseNumChars ('-' :: (natChars ipn ++ '.' :: fr)) =
      some (-((ipn : ℚ) + (digitsToNat fr : ℚ) / (10 : ℚ) ^ fr.length)) := by
  simpa using parseNumChars_render_frac true ipn fr hfr

/-- Round trip of the renderer: the decimal rendering of `n / 1000`
parses back to exactly the rational `n / 1000` — so the first output of a
successful conversion denotes the rounded value. -/
theorem parseNumChars_fmtQ3 (n : ℤ) :
    parseNumChars (fmtQ3Chars n) = some ((n : ℚ) / 1000) := by
  have hdm : (1000 : ℚ) * ((n.natAbs / 1000 : Nat) : ℚ) + ((n.natAbs % 1000 : Nat) : ℚ)
      = ((n.natAbs : Nat) : ℚ) := by
    exact_mod_cast congrArg (fun x : Nat => (x : ℚ)) (Nat.div_add_mod n.natAbs 1000)
  by_cases hn : n < 0
  · have hcast : ((n.natAbs : Nat) : ℚ) = -(n : ℚ) := by
      rw [Int.cast_natAbs, abs_of_neg hn]
      push_cast
      ring
    by_cases hfp : n.natAbs % 1000 = 0
    · have hchars : fmtQ3Chars n = '-' :: natChars (n.natAbs / 1000) := by
        simp [fmtQ3Chars, hn, hfp]
      rw [hchars, parse_int_neg]
      congr 1
      rw [hfp] at hdm
      push_cast at hdm ⊢
      linarith [hdm, hcast]
    · obtain ⟨hne0, hdig, hvalq⟩ :=
        stripZeros_padTo3_facts (n.natAbs % 1000) (Nat.mod_lt _ (by norm_num)) hfp
      have hchars : fmtQ3Chars n =
          '-' :: (natChars (n.natAbs / 1000) ++ '.' :: stripZeros (padTo3 (n.natAbs % 1000))) := by
        simp [fmtQ3Chars, hn, hfp]
      rw [hchars, parse_frac_neg _ _ hdig, hvalq]
      congr 1
      push_cast at hdm ⊢
      field_simp
      linarith [hdm, hcast]
  · have hcast : ((n.natAbs : Nat) : ℚ) = (n : ℚ) := by
      rw [Int.cast_natAbs, abs_of_nonneg (not_lt.1 hn)]
    by_cases hfp : n.natAbs % 1000 = 0
    · have hchars : fmtQ3Chars n = natChars (n.natAbs / 1000) := by
        simp [fmtQ3Chars, hn, hfp]
      rw [hchars, parse_int_pos]
      congr 1
      rw [hfp] at hdm
      push_cast at hdm ⊢
      linarith [hdm, hcast]
    · obtain ⟨hne0, hdig, hvalq⟩ :=
        stripZeros_padTo3_facts (n.natAbs % 1000) (Nat.mod_lt _ (by norm_num)) hfp
      have hchars : fmtQ3Chars n =
          natChars (n.natAbs / 1000) ++ '.' :: stripZeros (padTo3 (n.natAbs % 1000)) := by
        simp [fmtQ3Chars, hn, hfp]
      rw [hchars, parse_frac_pos _ _ hdig, hvalq]
      congr 1
      push_cast at hdm ⊢
      field_simp
      linarith [hdm, hcast]

/-- A list of digit characters never ends in `'.'`. -/
theorem getLast?_ne_dot_of_digits {l : List Char} (hd : ∀ c ∈ l, c.isDigit = true) :
    l.getLast? ≠ some '.' := by
  intro h
  obtain ⟨hne, heq⟩ := List.mem_getLast?_eq_getLast h
  have hmem : '.' ∈ l := heq ▸ List.getLast_mem hne
  have := hd '.' hmem
  simp at this

/-- Well-formedness of the rendering: when a decimal point is present the
output does not end in `'0'`, and it never ends in `'.'` — no unnecessary
trailing zeros. -/
theorem fmtQ3Chars_no_trailing (n : ℤ) :
    ('.' ∈ fmtQ3Chars n → (fmtQ3Chars n).getLast? ≠ some '0')
    ∧ (fmtQ3Chars n).getLast? ≠ some '.' := by
  by_cases hfp : n.natAbs % 1000 = 0
  · have hchars : fmtQ3Chars n =
        (if n < 0 then ['-'] else []) ++ natChars (n.natAbs / 1000) := by
      simp [fmtQ3Chars, hfp]
    constructor
    · intro hdot
      exfalso
      rw [hchars] at hdot
      rcases List.mem_append.1 hdot with h | h
      · by_cases hn : n < 0
        · rw [if_pos hn] at h
          simp at h
        · rw [if_neg hn] at h
          simp at h
      · have := natChars_all_digit _ _ h
        simp at this
    · rw [hchars, List.getLast?_append_of_ne_nil _ (natChars_ne_nil _)]
      exact getLast?_ne_dot_of_digits (natChars_all_digit _)
  · obtain ⟨hne0, hdig, _⟩ :=
      stripZeros_padTo3_facts (n.natAbs % 1000) (Nat.mod_lt _ (by norm_num)) hfp
    have hchars : fmtQ3Chars n =
        ((if n < 0 then ['-'] else []) ++ natChars (n.natAbs / 1000) ++ ['.']) ++
          stripZeros (padTo3 (n.natAbs % 1000)) := by
      simp [fmtQ3Chars, hfp]
    constructor
    · intro _
      rw [hchars, List.getLast?_append_of_ne_nil _ hne0]
      exact stripZeros_getLast?_ne_zero _
    · rw [hchars, List.getLast?_append_of_ne_nil _ hne0]
      exact getLast?_ne_dot_of_digits hdig

/-! ## The converter's success and failure contracts -/

/-- C3: for every input whose trimmed characters split on `/` into two
parseable parts with nonzero denominator `b`, `fracToDecimal` returns
`ok = true`, the trimmed input, and a first value equal to `1 + a/b`
rounded at the third decimal place (multiply by 1000, round to the
nearest integer half away from zero, divide by 1000): the output string
parses back to exactly that rounded rational and carries no unnecessary
trailing zeros (no trailing `'0'` after a decimal point, never a trailing
`'.'`). -/
theorem fracToDecimalSuccess (s : String) (sa sb : List Char) (a b : ℚ)
    (hsplit : (trimChars s.toList).splitOn '/' = [sa, sb])
    (ha : parseNumChars sa = some a) (hb : parseNumChars sb = some b) (hb0 : b ≠ 0) :
    fracToDecimal s =
      (String.mk (fmtQ3Chars (roundHalfAway ((1 + a / b) * 1000))),
        String.mk (trimChars s.toList), true)
    ∧ parseNumChars (fmtQ3Chars (roundHalfAway ((1 + a / b) * 1000))) =
        some (((roundHalfAway ((1 + a / b) * 1000) : ℤ) : ℚ) / 1000)
    ∧ ('.' ∈ fmtQ3Chars (roundHalfAway ((1 + a / b) * 1000)) →
        (fmtQ3Chars (roundHalfAway ((1 + a / b) * 1000))).getLast? ≠ some '0')
    ∧ (fmtQ3Chars (roundHalfAway ((1 + a / b) * 1000))).getLast? ≠ some '.' := by
  refine ⟨?_, parseNumChars_fmtQ3 _, (fmtQ3Chars_no_trailing _).1, (fmtQ3Chars_no_trailing _).2⟩
  simp only [fracToDecimal, hsplit, ha, hb, if_neg hb0]

/-- Concrete instantiation of `fracToDecimalSuccess` at `"5/2"`. -/
theorem fracToDecimalSuccessWitness :
    fracToDecimal "5/2" =
      (String.mk (fmtQ3Chars (roundHalfAway ((1 + (5 : ℚ) / 2) * 1000))),
        String.mk (trimChars "5/2".toList), true) := by
  have ha : parseNumChars ['5'] = some (5 : ℚ) := by
    have h : parseNumChars ['5'] = some ((1 : ℚ) * ((digitsToNat ['5'] : Nat) : ℚ)) := rfl
    rw [h, show digitsToNat ['5'] = 5 from rfl]
    norm_num
  have hb : parseNumChars ['2'] = some (2 : ℚ) := by
    have h : parseNumChars ['2'] = some ((1 : ℚ) * ((digitsToNat ['2'] : Nat) : ℚ)) := rfl
    rw [h, show digitsToNat ['2'] = 2 from rfl]
    norm_num
  exact (fracToDecimalSuccess "5/2" ['5'] ['2'] 5 2 rfl ha hb (by norm_num)).1

/-- C4, counterexample: the second return value is not the original input
text unchanged — the code trims whitespace first, so for `" abc "` the
second output is `"abc"`. -/
theorem fracToDecimalTrimCounterexample :
    fracToDecimal " abc " = ("", "abc", false) ∧ "abc" ≠ " abc " :=
  ⟨rfl, by decide⟩

/-- C4, amended: the failure conditions are as claimed but are evaluated
on the whitespace-trimmed input, and the preserved second output is the
trimmed input rather than the original text: `ok = false` iff the trimmed
characters do not split on `/` into exactly two parts both parsing as
numbers with a nonzero denominator. -/
theorem fracToDecimalFailure (s : String) :
    ((fracToDecimal s).2.2 = false ↔
      ¬ ∃ sa sb a b, (trimChars s.toList).splitOn '/' = [sa, sb]
        ∧ parseNumChars sa = some a ∧ parseNumChars sb = some b ∧ b ≠ 0)
    ∧ (fracToDecimal s).2.1 = String.mk (trimChars s.toList) := by
  refine ⟨?_, ?_⟩
  · simp only [fracToDecimal]
    split
    next sa sb heq =>
      split
      next a b ha hb =>
        by_cases hb0 : b = 0
        · rw [if_pos hb0]
          simp only [true_iff]
          rintro ⟨sa', sb', a', b', hsp', ha', hb', hb0'⟩
          rw [heq] at hsp'
          obtain ⟨rfl, rfl⟩ : sa' = sa ∧ sb' = sb := by
            injection hsp' with h1 h2
            injection h2 with h3 h4
            exact ⟨h1.symm, h3.symm⟩
          rw [ha] at ha'
          rw [hb] at hb'
          obtain rfl : b = b' := Option.some.inj hb'
          exact hb0' hb0
        · rw [if_neg hb0]
          simp only [Bool.true_eq_false, false_iff, not_not]
          exact ⟨sa, sb, a, b, heq, ha, hb, hb0⟩
      next hno =>
        simp only [true_iff]
        rintro ⟨sa', sb', a', b', hsp', ha', hb', hb0'⟩
        rw [heq] at hsp'
        obtain ⟨rfl, rfl⟩ : sa' = sa ∧ sb' = sb := by
          injection hsp' with h1 h2
          injection h2 with h3 h4
          exact ⟨h1.symm, h3.symm⟩
        exact hno a' b' ha' hb'
    next hno =>
      simp only [true_iff]
      rintro ⟨sa', sb', a', b', hsp', ha', hb', hb0'⟩
      exact hno sa' sb' hsp'
  · simp only [fracToDecimal]
    split
    · split
      · split <;> rfl
      · rfl
    · rfl

end OddsSync
